import Mathlib

/-!
Verification of the PMC bulk-equilibrium ice model (`pmc_02_model2b.py`).

The source file is a line-by-line transliteration of the IDL routine
`pmc_0d_model2b` into Python-like pseudocode.  We embed its numeric content
over `ℝ`:

* the three saturation-vapor-pressure-over-ice parameterizations (selector
  `vpop`, source lines 88-90 / 100-102);
* the dense lookup table `tx`/`px` (300 temperatures `50 + 3k`) and the
  frost-point inversion by bracketing plus log-linear interpolation in
  `(1/T, log10 p)` space (lines 128-155);
* the per-level equilibrium loop mutating seven output arrays (lines 94-155),
  embedded as a fold over a record of arrays with explicit `Function.update`;
* the layer summarizer (lines 165-185), with Python sequence indexing
  (including silent negative-index wrap-around and out-of-range failure)
  modelled explicitly by an `Option`-valued accessor.

Guards that the source writes with bitwise operators on floats / arrays
(lines 151 and 165) are ill-typed as written; they are embedded with the
conjunction semantics of the original IDL (`and` applied to relational
results), which is also the semantics the surrounding code relies on.  The
integer guard on line 67 is well-typed as written and is embedded literally,
with the operator precedence of the source language.
-/

namespace PMC

open Classical

noncomputable section

/-- Molecular weight of water, g/mol (source line 58). -/
def Mww : ℝ := 18.0

/-- Density of ice, g/cm³ (source line 59). -/
def di : ℝ := 0.93

/-- Gas constant, J/mol/K (source line 60). -/
def Rgas : ℝ := 8.314

/-- The validity guard on `vpop`, exactly as written on source line 67:
`vpop < 1 | vpop > 3`.  In the source language `|` binds tighter than the
comparisons, so the line is the chained comparison
`vpop < (1 | vpop) > 3`, i.e. `(vpop < (1 ||| vpop)) && ((1 ||| vpop) > 3)`.
`true` means the call is rejected. -/
def vpopInvalidGuard (vpop : ℕ) : Bool :=
  decide (vpop < (1 ||| vpop)) && decide ((1 ||| vpop) > 3)

/-- Saturation vapor pressure over ice in mb (source lines 88-90, identical
formulas re-used at lines 100-102): selector 1 = Murphy & Koop 2005,
2 = Mauersberger & Krankowsky 2003, 3 = Marti & Mauersberger 1993.
For any other selector no branch assigns, leaving the zero default. -/
def psat (vpop : ℕ) (T : ℝ) : ℝ :=
  if vpop = 1 then
    0.01 * Real.exp (9.550426 - 5723.265 / T + 3.53068 * Real.log T - 0.00728332 * T)
  else if vpop = 2 then
    0.01 * (10 : ℝ) ^ (14.88 - 3059.0 / T)
  else if vpop = 3 then
    0.01 * Real.exp (28.868 - 6132.935 / T)
  else 0

/-- Spec formula (§4.1), Murphy & Koop (2005), written from the spec's words:
`p = 0.01 · exp(9.550426 − 5723.265/T + 3.53068·ln(T) − 0.00728332·T)`. -/
def specMurphyKoop (T : ℝ) : ℝ :=
  0.01 * Real.exp (9.550426 - 5723.265 / T + 3.53068 * Real.log T - 0.00728332 * T)

/-- Spec formula (§4.1), Mauersberger & Krankowsky (2003) low-T branch,
written from the spec's words: `p = 0.01 · 10^(14.88 − 3059.0/T)`. -/
def specMauersbergerKrankowsky (T : ℝ) : ℝ :=
  0.01 * (10 : ℝ) ^ (14.88 - 3059.0 / T)

/-- Spec formula (§4.1), Marti & Mauersberger (1993), written from the
spec's words: `p = 0.01 · exp(28.868 − 6132.935/T)`. -/
def specMartiMauersberger (T : ℝ) : ℝ :=
  0.01 * Real.exp (28.868 - 6132.935 / T)

/-- The exponent of the Murphy & Koop expression, isolated for the
derivative computation. -/
def mkExponent (T : ℝ) : ℝ :=
  9.550426 - 5723.265 / T + 3.53068 * Real.log T - 0.00728332 * T

lemma psat_one_eq (T : ℝ) : psat 1 T = 0.01 * Real.exp (mkExponent T) := rfl

lemma psat_two_eq (T : ℝ) : psat 2 T = 0.01 * (10 : ℝ) ^ (14.88 - 3059.0 / T) := by
  norm_num [psat]

lemma psat_three_eq (T : ℝ) : psat 3 T = 0.01 * Real.exp (28.868 - 6132.935 / T) := by
  norm_num [psat]

lemma mkExponent_hasDerivAt (x : ℝ) (hx : x ≠ 0) :
    HasDerivAt mkExponent (5723.265 / x ^ 2 + 3.53068 / x - 0.00728332) x := by
  have h1 : HasDerivAt (fun T : ℝ => T⁻¹) (-(x ^ 2)⁻¹) x := hasDerivAt_inv hx
  have h2 : HasDerivAt (fun T : ℝ => 5723.265 / T) (5723.265 * -(x ^ 2)⁻¹) x := by
    simpa [div_eq_mul_inv] using h1.const_mul (5723.265 : ℝ)
  have h3 : HasDerivAt Real.log x⁻¹ x := Real.hasDerivAt_log hx
  have h4 : HasDerivAt (fun T : ℝ => 3.53068 * Real.log T) (3.53068 * x⁻¹) x :=
    h3.const_mul _
  have h5 : HasDerivAt (fun T : ℝ => 0.00728332 * T) (0.00728332 * 1) x :=
    (hasDerivAt_id x).const_mul _
  have h6 : HasDerivAt (fun T : ℝ => 9.550426 - 5723.265 / T)
      (0 - 5723.265 * -(x ^ 2)⁻¹) x := (hasDerivAt_const x _).sub h2
  have h7 := (h6.add h4).sub h5
  have hval : (0 - 5723.265 * -(x ^ 2)⁻¹ + 3.53068 * x⁻¹) - 0.00728332 * 1
      = 5723.265 / x ^ 2 + 3.53068 / x - 0.00728332 := by
    field_simp
  rw [← hval]
  exact h7

lemma mkExponent_continuousAt (x : ℝ) (hx : x ≠ 0) : ContinuousAt mkExponent x :=
  (mkExponent_hasDerivAt x hx).continuousAt

lemma mkExponent_strictMonoOn : StrictMonoOn mkExponent (Set.Icc 50 1000) := by
  apply strictMonoOn_of_deriv_pos (convex_Icc _ _)
  · intro x hx
    have hx0 : x ≠ 0 := by
      have : (50 : ℝ) ≤ x := hx.1
      linarith
    exact (mkExponent_continuousAt x hx0).continuousWithinAt
  · intro x hx
    rw [interior_Icc] at hx
    have hx0 : (0 : ℝ) < x := lt_trans (by norm_num) hx.1
    rw [(mkExponent_hasDerivAt x (ne_of_gt hx0)).deriv]
    have hq : (0 : ℝ) < 5723.265 + 3.53068 * x - 0.00728332 * x ^ 2 := by
      nlinarith [hx.2, hx0, mul_pos hx0 hx0]
    have hx2 : (0 : ℝ) < x ^ 2 := by positivity
    have : 5723.265 / x ^ 2 + 3.53068 / x - 0.00728332
        = (5723.265 + 3.53068 * x - 0.00728332 * x ^ 2) / x ^ 2 := by
      field_simp
      ring
    rw [this]
    positivity

/-- Monotonicity of each of the three parameterizations on the tabulated
temperature domain. -/
lemma psat_strictMonoOn (vpop : ℕ) (hv : vpop = 1 ∨ vpop = 2 ∨ vpop = 3) :
    StrictMonoOn (psat vpop) (Set.Icc 50 1000) := by
  intro a ha b hb hab
  have ha0 : (0 : ℝ) < a := lt_of_lt_of_le (by norm_num) ha.1
  have hb0 : (0 : ℝ) < b := lt_of_lt_of_le (by norm_num) hb.1
  rcases hv with hv | hv | hv <;> subst hv
  · rw [psat_one_eq, psat_one_eq]
    have := mkExponent_strictMonoOn ha hb hab
    have hexp := Real.exp_lt_exp.2 this
    exact mul_lt_mul_of_pos_left hexp (by norm_num)
  · rw [psat_two_eq, psat_two_eq]
    have hdiv : 3059.0 / b < 3059.0 / a := by
      apply div_lt_div_of_pos_left (by norm_num) ha0 hab
    have := Real.rpow_lt_rpow_of_exponent_lt (by norm_num : (1 : ℝ) < 10)
      (by linarith : 14.88 - 3059.0 / a < 14.88 - 3059.0 / b)
    exact mul_lt_mul_of_pos_left this (by norm_num)
  · rw [psat_three_eq, psat_three_eq]
    have hdiv : 6132.935 / b < 6132.935 / a := by
      apply div_lt_div_of_pos_left (by norm_num) ha0 hab
    have := Real.exp_lt_exp.2 (by linarith : 28.868 - 6132.935 / a < 28.868 - 6132.935 / b)
    exact mul_lt_mul_of_pos_left this (by norm_num)

/-- Positivity of each of the three parameterizations for `T > 0`
(also for any `T`: the formulas are exponentials). -/
lemma psat_pos (vpop : ℕ) (hv : vpop = 1 ∨ vpop = 2 ∨ vpop = 3) (T : ℝ) :
    0 < psat vpop T := by
  rcases hv with hv | hv | hv <;> subst hv
  · rw [psat_one_eq]
    positivity
  · rw [psat_two_eq]
    have := Real.rpow_pos_of_pos (by norm_num : (0 : ℝ) < 10) (14.88 - 3059.0 / T)
    positivity
  · rw [psat_three_eq]
    positivity

/-- The dense table of temperatures, source line 86:
`tx = numpy.arange(300) * 3. + 50.`. -/
def tx (k : ℕ) : ℝ := (k : ℝ) * 3 + 50

/-- The matching saturation pressures, source lines 88-90:
`px = <parameterization formula evaluated at tx>`. -/
def px (vpop k : ℕ) : ℝ := psat vpop (tx k)

/-- Indices of table entries with pressure strictly below `p_h2o`
(source line 135: `k = (px < p_h2o).nonzero()`). -/
def lowK (vpop : ℕ) (ph2o : ℝ) : Finset ℕ :=
  (Finset.range 300).filter fun k => px vpop k < ph2o

/-- Indices of table entries with pressure at or above `p_h2o`
(source line 143: `k = (px >= p_h2o).nonzero()`). -/
def hiK (vpop : ℕ) (ph2o : ℝ) : Finset ℕ :=
  (Finset.range 300).filter fun k => ph2o ≤ px vpop k

/-- `p1`, source lines 130/138-139: pressure at the last index whose table
pressure lies strictly below `p_h2o`, zero when there is none. -/
def p1 (vpop : ℕ) (ph2o : ℝ) : ℝ :=
  if h : (lowK vpop ph2o).Nonempty then px vpop ((lowK vpop ph2o).max' h) else 0

/-- `t1`, source lines 131/140. -/
def t1 (vpop : ℕ) (ph2o : ℝ) : ℝ :=
  if h : (lowK vpop ph2o).Nonempty then tx ((lowK vpop ph2o).max' h) else 0

/-- `p2`, source lines 132/146-147: pressure at the first index whose table
pressure is at or above `p_h2o`, zero when there is none. -/
def p2 (vpop : ℕ) (ph2o : ℝ) : ℝ :=
  if h : (hiK vpop ph2o).Nonempty then px vpop ((hiK vpop ph2o).min' h) else 0

/-- `t2`, source lines 133/148. -/
def t2 (vpop : ℕ) (ph2o : ℝ) : ℝ :=
  if h : (hiK vpop ph2o).Nonempty then tx ((hiK vpop ph2o).min' h) else 0

/-- `min(px)` over the 300-entry table (source line 151). -/
def pxMin (vpop : ℕ) : ℝ :=
  (Finset.range 300).inf' ⟨0, by norm_num⟩ (px vpop)

/-- `max(px)` over the 300-entry table (source line 151). -/
def pxMax (vpop : ℕ) : ℝ :=
  (Finset.range 300).sup' ⟨0, by norm_num⟩ (px vpop)

/-- `numpy.log10`. -/
def log10 (x : ℝ) : ℝ := Real.logb 10 x

/-- The interpolation fraction `dsds`, source line 153. -/
def dsds (vpop : ℕ) (ph2o : ℝ) : ℝ :=
  (log10 (p2 vpop ph2o) - log10 ph2o) / (log10 (p2 vpop ph2o) - log10 (p1 vpop ph2o))

/-- The frost-point inversion for one level, source lines 130-155, as a
function of the selector and the level's H2O partial pressure.  The guard on
line 151 (`p_h2o >= min(px) & p_h2o <= max(px) & p1 > 0 & p2 > 0`) is
embedded as the conjunction of its four relational parts. -/
def t_ice_level (vpop : ℕ) (ph2o : ℝ) : ℝ :=
  if pxMin vpop ≤ ph2o ∧ ph2o ≤ pxMax vpop ∧ 0 < p1 vpop ph2o ∧ 0 < p2 vpop ph2o then
    1 / (1 / t2 vpop ph2o - dsds vpop ph2o * (1 / t2 vpop ph2o - 1 / t1 vpop ph2o))
  else 0

lemma tx_nonneg (k : ℕ) : (50 : ℝ) ≤ tx k := by
  have : (0 : ℝ) ≤ (k : ℝ) * 3 := by positivity
  simp only [tx]
  linarith

lemma tx_pos (k : ℕ) : (0 : ℝ) < tx k := lt_of_lt_of_le (by norm_num) (tx_nonneg k)

lemma tx_mem_Icc (k : ℕ) (hk : k < 300) : tx k ∈ Set.Icc (50 : ℝ) 1000 := by
  constructor
  · exact tx_nonneg k
  · have hk' : (k : ℝ) ≤ 299 := by exact_mod_cast Nat.lt_succ_iff.mp hk
    simp only [tx]
    linarith

lemma tx_lt_tx {j k : ℕ} (h : j < k) : tx j < tx k := by
  have : (j : ℝ) < (k : ℝ) := by exact_mod_cast h
  simp only [tx]
  linarith

lemma px_pos (vpop : ℕ) (hv : vpop = 1 ∨ vpop = 2 ∨ vpop = 3) (k : ℕ) :
    0 < px vpop k := psat_pos vpop hv (tx k)

lemma tx_mem_Icc_of_le {k : ℕ} (hk : k ≤ 299) : tx k ∈ Set.Icc (50 : ℝ) 1000 :=
  tx_mem_Icc k (Nat.lt_succ_of_le hk)

lemma px_lt_px (vpop : ℕ) (hv : vpop = 1 ∨ vpop = 2 ∨ vpop = 3)
    {j k : ℕ} (hjk : j < k) (hk : k < 300) : px vpop j < px vpop k :=
  psat_strictMonoOn vpop hv (tx_mem_Icc j (lt_trans hjk hk)) (tx_mem_Icc k hk)
    (tx_lt_tx hjk)

lemma px_le_px (vpop : ℕ) (hv : vpop = 1 ∨ vpop = 2 ∨ vpop = 3)
    {j k : ℕ} (hjk : j ≤ k) (hk : k < 300) : px vpop j ≤ px vpop k := by
  rcases lt_or_eq_of_le hjk with h | h
  · exact (px_lt_px vpop hv h hk).le
  · rw [h]

/-- From a value comparison back to an index comparison. -/
lemma lt_of_px_lt_px (vpop : ℕ) (hv : vpop = 1 ∨ vpop = 2 ∨ vpop = 3)
    {j k : ℕ} (hj : j < 300) (hk : k < 300) (h : px vpop j < px vpop k) : j < k := by
  by_contra hle
  push_neg at hle
  exact absurd (px_le_px vpop hv hle hj) (not_le.mpr h)

/-- When a largest strictly-below index is identified, `p1`/`t1` take its
table values. -/
lemma p1_t1_eq (vpop : ℕ) (ph2o : ℝ) (k1 : ℕ) (hk1 : k1 ∈ lowK vpop ph2o)
    (hmax : ∀ j ∈ lowK vpop ph2o, j ≤ k1) :
    p1 vpop ph2o = px vpop k1 ∧ t1 vpop ph2o = tx k1 := by
  have hne : (lowK vpop ph2o).Nonempty := ⟨k1, hk1⟩
  have hm : (lowK vpop ph2o).max' hne = k1 :=
    le_antisymm (Finset.max'_le _ _ _ hmax) (Finset.le_max' _ _ hk1)
  constructor
  · rw [p1, dif_pos hne, hm]
  · rw [t1, dif_pos hne, hm]

/-- When a smallest at-or-above index is identified, `p2`/`t2` take its
table values. -/
lemma p2_t2_eq (vpop : ℕ) (ph2o : ℝ) (k2 : ℕ) (hk2 : k2 ∈ hiK vpop ph2o)
    (hmin : ∀ j ∈ hiK vpop ph2o, k2 ≤ j) :
    p2 vpop ph2o = px vpop k2 ∧ t2 vpop ph2o = tx k2 := by
  have hne : (hiK vpop ph2o).Nonempty := ⟨k2, hk2⟩
  have hm : (hiK vpop ph2o).min' hne = k2 :=
    le_antisymm (Finset.min'_le _ _ hk2) (Finset.le_min' _ _ _ hmin)
  constructor
  · rw [p2, dif_pos hne, hm]
  · rw [t2, dif_pos hne, hm]

lemma t_ice_level_of_guard (vpop : ℕ) (ph2o : ℝ)
    (h : pxMin vpop ≤ ph2o ∧ ph2o ≤ pxMax vpop ∧ 0 < p1 vpop ph2o ∧ 0 < p2 vpop ph2o) :
    t_ice_level vpop ph2o
      = 1 / (1 / t2 vpop ph2o - dsds vpop ph2o * (1 / t2 vpop ph2o - 1 / t1 vpop ph2o)) :=
  if_pos h

lemma t_ice_level_of_not_guard (vpop : ℕ) (ph2o : ℝ)
    (h : ¬ (pxMin vpop ≤ ph2o ∧ ph2o ≤ pxMax vpop ∧ 0 < p1 vpop ph2o ∧ 0 < p2 vpop ph2o)) :
    t_ice_level vpop ph2o = 0 :=
  if_neg h

/-- The seven per-level output arrays, modelled as total functions on level
indices (source lines 71-77). -/
structure OutState where
  t_ice : ℕ → ℝ
  p_ice : ℕ → ℝ
  s_ice : ℕ → ℝ
  h2o_sat : ℕ → ℝ
  v_ice : ℕ → ℝ
  m_ice : ℕ → ℝ
  h2o_ice : ℕ → ℝ

/-- Initial output arrays (source lines 71-77): all zero except `h2o_sat`,
pre-filled with the sentinel 999. -/
def initState : OutState :=
  ⟨fun _ => 0, fun _ => 0, fun _ => 0, fun _ => 999, fun _ => 0, fun _ => 0, fun _ => 0⟩

/-- One iteration of the altitude loop (source lines 94-155).  When
`t[i] > 0` the level's outputs are written at index `i`; otherwise nothing
is touched.  The ice quantities `v_ice`, `m_ice`, `h2o_ice` are written only
when the excess mixing ratio `q_xs` is positive (source line 114). -/
def stepLevel (vpop : ℕ) (t p h2o : ℕ → ℝ) (s : OutState) (i : ℕ) : OutState :=
  if 0 < t i then
    let pice := psat vpop (t i)
    let hsat := 1.0e6 * pice / p i
    let sice := h2o i / hsat
    let q_xs := h2o i - hsat
    let s1 : OutState :=
      { s with
        p_ice := Function.update s.p_ice i pice
        h2o_sat := Function.update s.h2o_sat i hsat
        s_ice := Function.update s.s_ice i sice }
    let s2 : OutState :=
      if 0 < q_xs then
        let n_xs := p i * 1.0e2 * q_xs * 1.0e-6 / (Rgas * t i)
        { s1 with
          v_ice := Function.update s1.v_ice i (1.0e6 * n_xs * Mww / di)
          m_ice := Function.update s1.m_ice i (1e9 * n_xs * Mww)
          h2o_ice := Function.update s1.h2o_ice i q_xs }
      else s1
    { s2 with t_ice := Function.update s2.t_ice i (t_ice_level vpop (p i * h2o i * 1.0e-6)) }
  else s

/-- The altitude loop over levels `0 .. n-1` (source line 94). -/
def runLevels (vpop : ℕ) (t p h2o : ℕ → ℝ) (n : ℕ) : OutState :=
  (List.range n).foldl (stepLevel vpop t p h2o) initState

/-- A step at index `j ≠ i` leaves every array unchanged at index `i`. -/
lemma stepLevel_frame (vpop : ℕ) (t p h2o : ℕ → ℝ) (s : OutState) {i j : ℕ}
    (hij : j ≠ i) :
    (stepLevel vpop t p h2o s j).t_ice i = s.t_ice i ∧
    (stepLevel vpop t p h2o s j).p_ice i = s.p_ice i ∧
    (stepLevel vpop t p h2o s j).s_ice i = s.s_ice i ∧
    (stepLevel vpop t p h2o s j).h2o_sat i = s.h2o_sat i ∧
    (stepLevel vpop t p h2o s j).v_ice i = s.v_ice i ∧
    (stepLevel vpop t p h2o s j).m_ice i = s.m_ice i ∧
    (stepLevel vpop t p h2o s j).h2o_ice i = s.h2o_ice i := by
  unfold stepLevel
  by_cases ht : 0 < t j
  · rw [if_pos ht]
    by_cases hq : 0 < h2o j - 1.0e6 * psat vpop (t j) / p j
    · simp only [if_pos hq]
      refine ⟨?_, ?_, ?_, ?_, ?_, ?_, ?_⟩ <;>
        first
          | trivial
          | exact Function.update_noteq (Ne.symm hij) _ _
    · simp only [if_neg hq]
      refine ⟨?_, ?_, ?_, ?_, ?_, ?_, ?_⟩ <;>
        first
          | trivial
          | exact Function.update_noteq (Ne.symm hij) _ _
  · rw [if_neg ht]
    exact ⟨rfl, rfl, rfl, rfl, rfl, rfl, rfl⟩

/-- Levels at or beyond the loop bound keep their initial values. -/
lemma runLevels_untouched (vpop : ℕ) (t p h2o : ℕ → ℝ) (n i : ℕ) (hni : n ≤ i) :
    (runLevels vpop t p h2o n).t_ice i = 0 ∧
    (runLevels vpop t p h2o n).p_ice i = 0 ∧
    (runLevels vpop t p h2o n).s_ice i = 0 ∧
    (runLevels vpop t p h2o n).h2o_sat i = 999 ∧
    (runLevels vpop t p h2o n).v_ice i = 0 ∧
    (runLevels vpop t p h2o n).m_ice i = 0 ∧
    (runLevels vpop t p h2o n).h2o_ice i = 0 := by
  induction n with
  | zero => exact ⟨rfl, rfl, rfl, rfl, rfl, rfl, rfl⟩
  | succ m ih =>
    have hmi : m ≤ i := le_trans (Nat.le_succ m) hni
    have hne : m ≠ i := fun h => absurd hni (by omega)
    have hstep := stepLevel_frame vpop t p h2o (runLevels vpop t p h2o m) hne
    have hrun : runLevels vpop t p h2o (m + 1)
        = stepLevel vpop t p h2o (runLevels vpop t p h2o m) m := by
      unfold runLevels
      rw [List.range_succ, List.foldl_append, List.foldl_cons, List.foldl_nil]
    rw [hrun]
    obtain ⟨e1, e2, e3, e4, e5, e6, e7⟩ := hstep
    obtain ⟨i1, i2, i3, i4, i5, i6, i7⟩ := ih hmi
    exact ⟨e1.trans i1, e2.trans i2, e3.trans i3, e4.trans i4,
      e5.trans i5, e6.trans i6, e7.trans i7⟩

/-- The value of every output array at a level inside the loop bound:
each is determined by that level's inputs alone. -/
lemma runLevels_at (vpop : ℕ) (t p h2o : ℕ → ℝ) (n i : ℕ) (hin : i < n) :
    (runLevels vpop t p h2o n).t_ice i
      = (if 0 < t i then t_ice_level vpop (p i * h2o i * 1.0e-6) else 0) ∧
    (runLevels vpop t p h2o n).p_ice i
      = (if 0 < t i then psat vpop (t i) else 0) ∧
    (runLevels vpop t p h2o n).s_ice i
      = (if 0 < t i then h2o i / (1.0e6 * psat vpop (t i) / p i) else 0) ∧
    (runLevels vpop t p h2o n).h2o_sat i
      = (if 0 < t i then 1.0e6 * psat vpop (t i) / p i else 999) ∧
    (runLevels vpop t p h2o n).v_ice i
      = (if 0 < t i ∧ 0 < h2o i - 1.0e6 * psat vpop (t i) / p i then
          1.0e6 * (p i * 1.0e2 * (h2o i - 1.0e6 * psat vpop (t i) / p i) * 1.0e-6
            / (Rgas * t i)) * Mww / di
        else 0) ∧
    (runLevels vpop t p h2o n).m_ice i
      = (if 0 < t i ∧ 0 < h2o i - 1.0e6 * psat vpop (t i) / p i then
          1e9 * (p i * 1.0e2 * (h2o i - 1.0e6 * psat vpop (t i) / p i) * 1.0e-6
            / (Rgas * t i)) * Mww
        else 0) ∧
    (runLevels vpop t p h2o n).h2o_ice i
      = (if 0 < t i ∧ 0 < h2o i - 1.0e6 * psat vpop (t i) / p i then
          h2o i - 1.0e6 * psat vpop (t i) / p i
        else 0) := by
  induction n with
  | zero => omega
  | succ m ih =>
    have hrun : runLevels vpop t p h2o (m + 1)
        = stepLevel vpop t p h2o (runLevels vpop t p h2o m) m := by
      unfold runLevels
      rw [List.range_succ, List.foldl_append, List.foldl_cons, List.foldl_nil]
    rcases Nat.lt_succ_iff_lt_or_eq.mp hin with him | him
    · have hne : m ≠ i := by omega
      have hstep := stepLevel_frame vpop t p h2o (runLevels vpop t p h2o m) hne
      rw [hrun]
      obtain ⟨e1, e2, e3, e4, e5, e6, e7⟩ := hstep
      obtain ⟨i1, i2, i3, i4, i5, i6, i7⟩ := ih him
      exact ⟨e1.trans i1, e2.trans i2, e3.trans i3, e4.trans i4,
        e5.trans i5, e6.trans i6, e7.trans i7⟩
    · subst him
      obtain ⟨u1, u2, u3, u4, u5, u6, u7⟩ :=
        runLevels_untouched vpop t p h2o i i le_rfl
      rw [hrun]
      unfold stepLevel
      by_cases ht : 0 < t i
      · rw [if_pos ht]
        by_cases hq : 0 < h2o i - 1.0e6 * psat vpop (t i) / p i
        · simp only [if_pos hq]
          refine ⟨?_, ?_, ?_, ?_, ?_, ?_, ?_⟩ <;>
            simp only [Function.update_same, if_pos ht, if_pos (And.intro ht hq)]
        · simp only [if_neg hq]
          refine ⟨?_, ?_, ?_, ?_, ?_, ?_, ?_⟩ <;>
            simp only [Function.update_same, if_pos ht,
              if_neg (fun hc : _ ∧ _ => hq hc.2), u5, u6, u7]
      · rw [if_neg ht]
        simp only [if_neg ht, if_neg (fun hc : _ ∧ _ => ht hc.1), u1, u2, u3, u4, u5, u6, u7]
        simp

/-- The layer index set, source line 165:
`k = (z > 80 & z < 95 & m_ice > 0.).nonzero()` (element-wise conjunction of
the three conditions over the profile). -/
def layerK (n : ℕ) (z m : ℕ → ℝ) : Finset ℕ :=
  (Finset.range n).filter fun i => 80 < z i ∧ z i < 95 ∧ 0 < m i

/-- The same index set in profile order, used for the integration loop on
source line 182 (`for i in range(0, nk)` over the sorted nonzero indices). -/
def layerKList (n : ℕ) (z m : ℕ → ℝ) : List ℕ :=
  (List.range n).filter fun i => decide (80 < z i ∧ z i < 95 ∧ 0 < m i)

/-- The peak index, source lines 171-173:
`l = (m_ice[k] == max(m_ice[k])).nonzero(); l = k[l[0]]` — the first index in
the layer whose mass density attains the maximum. -/
def peakIdx (n : ℕ) (z m : ℕ → ℝ) : ℕ :=
  if h : (layerK n z m).Nonempty then
    ((layerK n z m).filter fun i => m i = (layerK n z m).sup' h m).min'
      (by obtain ⟨j, hj, he⟩ := Finset.exists_mem_eq_sup' h m
          exact ⟨j, Finset.mem_filter.2 ⟨hj, he.symm⟩⟩)
  else 0

/-- `zmax`, source line 176: altitude of the peak index (zero when no layer
is detected, line 79). -/
def zmaxVal (n : ℕ) (z m : ℕ → ℝ) : ℝ :=
  if (layerK n z m).Nonempty then z (peakIdx n z m) else 0

/-- `ztop`, source line 177: `max(z[k])` (zero default, line 80). -/
def ztopVal (n : ℕ) (z m : ℕ → ℝ) : ℝ :=
  if h : (layerK n z m).Nonempty then (layerK n z m).sup' h z else 0

/-- `zbot`, source line 178: `min(z[k])` (zero default, line 81). -/
def zbotVal (n : ℕ) (z m : ℕ → ℝ) : ℝ :=
  if h : (layerK n z m).Nonempty then (layerK n z m).inf' h z else 0

/-- Sequence indexing with the source language's semantics: indices
`0 ≤ i < n` read directly, indices `-n ≤ i < 0` silently wrap to the other
end of the array, and anything else is a runtime index error (`none`). -/
def pyGet (n : ℕ) (f : ℕ → ℝ) (i : ℤ) : Option ℝ :=
  if 0 ≤ i ∧ i < (n : ℤ) then some (f i.toNat)
  else if -(n : ℤ) ≤ i ∧ i < 0 then some (f (i + (n : ℤ)).toNat)
  else none

/-- The `dz` binding before the integration loop, source line 180:
`if (constdz is None): dz = abs(z[1] - z[0])`.  When `constdz` is supplied
the name `dz` is left unbound (inner `none`); a failed index read is a
runtime error (outer `none`). -/
def dzInit (n : ℕ) (z : ℕ → ℝ) (constdz : Option ℝ) : Option (Option ℝ) :=
  match constdz with
  | none =>
    match pyGet n z 1, pyGet n z 0 with
    | some a, some b => some (some |a - b|)
    | _, _ => none
  | some _ => some none

/-- One iteration of the integration loop, source lines 182-185.  The state
is `none` after a runtime error, otherwise `(dz, iwc)` with `dz = none` while
the name is still unbound.  Only when `z[k[i]] > zmax - 2` does the body run:
with `constdz` supplied, `dz = abs(z[k[i]+1] - z[k[i]-1]) * 0.5` is
recomputed (with the source's wrap-around indexing); then
`iwc += m_ice[k[i]] * dz`. -/
def iwcStep (n : ℕ) (z m : ℕ → ℝ) (zmax : ℝ) (constdz : Option ℝ)
    (st : Option (Option ℝ × ℝ)) (i : ℕ) : Option (Option ℝ × ℝ) :=
  match st with
  | none => none
  | some (dz, acc) =>
    if zmax - 2 < z i then
      let dzNew : Option (Option ℝ) :=
        match constdz with
        | some _ =>
          match pyGet n z ((i : ℤ) + 1), pyGet n z ((i : ℤ) - 1) with
          | some a, some b => some (some (|a - b| * 0.5))
          | _, _ => none
        | none => some dz
      match dzNew with
      | none => none
      | some none => none
      | some (some d) => some (some d, acc + m i * d)
    else some (dz, acc)

/-- The column integration, source lines 169-185: zero when no layer is
detected, otherwise the loop over the layer indices in profile order.
`none` models a runtime error (index out of range / unbound `dz`). -/
def iwcCalc (n : ℕ) (z m : ℕ → ℝ) (constdz : Option ℝ) : Option ℝ :=
  if (layerK n z m).Nonempty then
    (dzInit n z constdz).bind fun dz0 =>
      ((layerKList n z m).foldl (iwcStep n z m (zmaxVal n z m) constdz)
        (some (dz0, 0))).map (fun st => st.2)
  else some 0

lemma lowK_mem_iff (vpop : ℕ) (ph2o : ℝ) (k : ℕ) :
    k ∈ lowK vpop ph2o ↔ k < 300 ∧ px vpop k < ph2o := by
  simp [lowK, Finset.mem_filter, Finset.mem_range]

lemma hiK_mem_iff (vpop : ℕ) (ph2o : ℝ) (k : ℕ) :
    k ∈ hiK vpop ph2o ↔ k < 300 ∧ ph2o ≤ px vpop k := by
  simp [hiK, Finset.mem_filter, Finset.mem_range]

lemma lowK_nonempty_iff (vpop : ℕ) (ph2o : ℝ) :
    (lowK vpop ph2o).Nonempty ↔ ∃ k, k < 300 ∧ px vpop k < ph2o := by
  constructor
  · rintro ⟨k, hk⟩
    exact ⟨k, (lowK_mem_iff vpop ph2o k).mp hk⟩
  · rintro ⟨k, hk⟩
    exact ⟨k, (lowK_mem_iff vpop ph2o k).mpr hk⟩

lemma hiK_nonempty_iff (vpop : ℕ) (ph2o : ℝ) :
    (hiK vpop ph2o).Nonempty ↔ ∃ k, k < 300 ∧ ph2o ≤ px vpop k := by
  constructor
  · rintro ⟨k, hk⟩
    exact ⟨k, (hiK_mem_iff vpop ph2o k).mp hk⟩
  · rintro ⟨k, hk⟩
    exact ⟨k, (hiK_mem_iff vpop ph2o k).mpr hk⟩

lemma pxMin_le (vpop k : ℕ) (hk : k < 300) : pxMin vpop ≤ px vpop k :=
  Finset.inf'_le _ (Finset.mem_range.mpr hk)

lemma le_pxMax (vpop k : ℕ) (hk : k < 300) : px vpop k ≤ pxMax vpop :=
  Finset.le_sup' _ (Finset.mem_range.mpr hk)

lemma tx_le_947 (k : ℕ) (hk : k < 300) : tx k ≤ 947 := by
  have hk' : (k : ℝ) ≤ 299 := by exact_mod_cast Nat.lt_succ_iff.mp hk
  simp only [tx]
  linarith

/-- Whenever either bracket list is empty or either bound is non-positive,
the interpolation is skipped and `t_ice` keeps its zero default. -/
lemma t_ice_level_zero_cases (vpop : ℕ) (ph : ℝ)
    (h : ¬ (∃ k, k < 300 ∧ px vpop k < ph) ∨ ¬ (∃ k, k < 300 ∧ ph ≤ px vpop k)
        ∨ p1 vpop ph ≤ 0 ∨ p2 vpop ph ≤ 0) : t_ice_level vpop ph = 0 := by
  apply t_ice_level_of_not_guard
  rintro ⟨hmn, hmx, hp1, hp2⟩
  rcases h with h | h | h | h
  · rw [p1, dif_neg (fun hne => h ((lowK_nonempty_iff vpop ph).mp hne))] at hp1
    exact lt_irrefl 0 hp1
  · rw [p2, dif_neg (fun hne => h ((hiK_nonempty_iff vpop ph).mp hne))] at hp2
    exact lt_irrefl 0 hp2
  · exact absurd hp1 (not_lt.mpr h)
  · exact absurd hp2 (not_lt.mpr h)

/-- Concrete profile used to witness the skipped-level claim: a single level
with negative temperature. -/
def tNeg : ℕ → ℝ := fun _ => -1

/-- Concrete pressure profile for the skipped-level witness. -/
def pOne : ℕ → ℝ := fun _ => 1

/-- Concrete water profile for the skipped-level witness. -/
def h2oOne : ℕ → ℝ := fun _ => 1

/-- C3: the source's own error message (line 68) and the spec agree that any
`vpop` outside `{1,2,3}` must be rejected; but the guard as written on line
67 (`vpop < 1 | vpop > 3`, which parses as `vpop < (1|vpop) > 3`) fails to
reject `vpop = 0`, while it does reject `vpop = 4` and lets 1, 2, 3 through.
This theorem evaluates the guard at those inputs. -/
theorem vpop_guard_evaluation :
    vpopInvalidGuard 0 = false ∧ vpopInvalidGuard 4 = true ∧
    vpopInvalidGuard 1 = false ∧ vpopInvalidGuard 2 = false ∧
    vpopInvalidGuard 3 = false := by decide

/-- C5: for every temperature `T > 0`, each of the three selectors returns
exactly the spec's formula, including the exact 0.01 Pa-to-mb factor. -/
theorem psat_matches_spec (T : ℝ) (hT : 0 < T) :
    psat 1 T = specMurphyKoop T ∧
    psat 2 T = specMauersbergerKrankowsky T ∧
    psat 3 T = specMartiMauersberger T :=
  ⟨rfl, psat_two_eq T, psat_three_eq T⟩

/-- Witness for C5 at the concrete temperature `T = 273`. -/
theorem psat_matches_spec_witness :
    psat 1 273 = specMurphyKoop 273 ∧
    psat 2 273 = specMauersbergerKrankowsky 273 ∧
    psat 3 273 = specMartiMauersberger 273 :=
  psat_matches_spec 273 (by norm_num)

/-- C7: each of the three parameterizations is strictly increasing in
temperature over the 50–1000 K domain, and in particular over the table
temperatures `tx 0 < ... < tx 299` spanning 50–947 K. -/
theorem psat_monotone_in_temperature (vpop : ℕ)
    (hv : vpop = 1 ∨ vpop = 2 ∨ vpop = 3) :
    (∀ Ta Tb : ℝ, Ta ∈ Set.Icc (50 : ℝ) 1000 → Tb ∈ Set.Icc (50 : ℝ) 1000 →
      Ta < Tb → psat vpop Ta < psat vpop Tb) ∧
    (∀ j k : ℕ, j < k → k < 300 → px vpop j < px vpop k) :=
  ⟨fun _ _ ha hb hab => psat_strictMonoOn vpop hv ha hb hab,
   fun _ _ hjk hk => px_lt_px vpop hv hjk hk⟩

/-- Witness for C7: Murphy & Koop at 150 K vs 160 K, and the first two
Mauersberger & Krankowsky table entries. -/
theorem psat_monotone_in_temperature_witness :
    psat 1 150 < psat 1 160 ∧ px 2 0 < px 2 1 :=
  ⟨(psat_monotone_in_temperature 1 (Or.inl rfl)).1 150 160
      (by norm_num) (by norm_num) (by norm_num),
   (psat_monotone_in_temperature 2 (Or.inr (Or.inl rfl))).2 0 1
      (by norm_num) (by norm_num)⟩

/-- C8: a level whose temperature is non-positive is skipped entirely: after
the loop all of its per-level outputs keep their defaults (zeros, and the
999 sentinel for `h2o_sat`), regardless of what happens at other levels. -/
theorem nonpositive_temperature_level_untouched (vpop n i : ℕ)
    (t p h2o : ℕ → ℝ) (ht : t i ≤ 0) :
    (runLevels vpop t p h2o n).t_ice i = 0 ∧
    (runLevels vpop t p h2o n).p_ice i = 0 ∧
    (runLevels vpop t p h2o n).s_ice i = 0 ∧
    (runLevels vpop t p h2o n).h2o_sat i = 999 ∧
    (runLevels vpop t p h2o n).v_ice i = 0 ∧
    (runLevels vpop t p h2o n).m_ice i = 0 ∧
    (runLevels vpop t p h2o n).h2o_ice i = 0 := by
  rcases lt_or_ge i n with hin | hin
  · have hnt : ¬ 0 < t i := not_lt.mpr ht
    obtain ⟨a1, a2, a3, a4, a5, a6, a7⟩ := runLevels_at vpop t p h2o n i hin
    refine ⟨?_, ?_, ?_, ?_, ?_, ?_, ?_⟩
    · rw [a1, if_neg hnt]
    · rw [a2, if_neg hnt]
    · rw [a3, if_neg hnt]
    · rw [a4, if_neg hnt]
    · rw [a5, if_neg (fun hc : _ ∧ _ => hnt hc.1)]
    · rw [a6, if_neg (fun hc : _ ∧ _ => hnt hc.1)]
    · rw [a7, if_neg (fun hc : _ ∧ _ => hnt hc.1)]
  · exact runLevels_untouched vpop t p h2o n i hin

/-- Witness for C8: a one-level profile at `T = -1` keeps every default. -/
theorem nonpositive_temperature_level_untouched_witness :
    (runLevels 1 tNeg pOne h2oOne 1).t_ice 0 = 0 ∧
    (runLevels 1 tNeg pOne h2oOne 1).p_ice 0 = 0 ∧
    (runLevels 1 tNeg pOne h2oOne 1).s_ice 0 = 0 ∧
    (runLevels 1 tNeg pOne h2oOne 1).h2o_sat 0 = 999 ∧
    (runLevels 1 tNeg pOne h2oOne 1).v_ice 0 = 0 ∧
    (runLevels 1 tNeg pOne h2oOne 1).m_ice 0 = 0 ∧
    (runLevels 1 tNeg pOne h2oOne 1).h2o_ice 0 = 0 :=
  nonpositive_temperature_level_untouched 1 1 0 tNeg pOne h2oOne (by norm_num [tNeg])

/-- C1: per level (with positive temperature), when a valid bracket exists —
`px k1` the largest table pressure strictly below `p_h2o = p[i]*h2o[i]*1e-6`,
`px k2` the smallest table pressure at or above it, `p_h2o` within the
table's pressure range, and both bounds positive, all jointly — the loop
writes `t_ice[i] = 1/(1/t2 - frac*(1/t2 - 1/t1))` with
`frac = (log10 p2 - log10 p_h2o)/(log10 p2 - log10 p1)`; and whenever no
such bracket exists or either bound is non-positive, `t_ice` keeps its zero
default. -/
theorem frost_point_bracket_interpolation
    (vpop : ℕ) (hv : vpop = 1 ∨ vpop = 2 ∨ vpop = 3)
    (t p h2o : ℕ → ℝ) (n i : ℕ) (hin : i < n) (ht : 0 < t i)
    (k1 k2 : ℕ) (hk1 : k1 < 300) (hk2 : k2 < 300)
    (h1lt : px vpop k1 < p i * h2o i * 1.0e-6)
    (h1max : ∀ j, j < 300 → px vpop j < p i * h2o i * 1.0e-6 →
      px vpop j ≤ px vpop k1)
    (h2ge : p i * h2o i * 1.0e-6 ≤ px vpop k2)
    (h2min : ∀ j, j < 300 → p i * h2o i * 1.0e-6 ≤ px vpop j →
      px vpop k2 ≤ px vpop j)
    (hrange : pxMin vpop ≤ p i * h2o i * 1.0e-6 ∧
      p i * h2o i * 1.0e-6 ≤ pxMax vpop)
    (hp1 : 0 < px vpop k1) (hp2 : 0 < px vpop k2) :
    (runLevels vpop t p h2o n).t_ice i
      = 1 / (1 / tx k2
          - (log10 (px vpop k2) - log10 (p i * h2o i * 1.0e-6))
            / (log10 (px vpop k2) - log10 (px vpop k1))
            * (1 / tx k2 - 1 / tx k1)) ∧
    (∀ ph : ℝ, (¬ (∃ k, k < 300 ∧ px vpop k < ph) ∨
        ¬ (∃ k, k < 300 ∧ ph ≤ px vpop k) ∨
        p1 vpop ph ≤ 0 ∨ p2 vpop ph ≤ 0) → t_ice_level vpop ph = 0) := by
  constructor
  · have hrl := (runLevels_at vpop t p h2o n i hin).1
    rw [hrl, if_pos ht]
    set q := p i * h2o i * 1.0e-6 with hq
    have hk1mem : k1 ∈ lowK vpop q := (lowK_mem_iff vpop q k1).mpr ⟨hk1, h1lt⟩
    have hk1max : ∀ j ∈ lowK vpop q, j ≤ k1 := by
      intro j hj
      obtain ⟨hj300, hjlt⟩ := (lowK_mem_iff vpop q j).mp hj
      by_contra hgt
      push_neg at hgt
      exact absurd (h1max j hj300 hjlt)
        (not_le.mpr (px_lt_px vpop hv hgt hj300))
    have hk2mem : k2 ∈ hiK vpop q := (hiK_mem_iff vpop q k2).mpr ⟨hk2, h2ge⟩
    have hk2min : ∀ j ∈ hiK vpop q, k2 ≤ j := by
      intro j hj
      obtain ⟨hj300, hjge⟩ := (hiK_mem_iff vpop q j).mp hj
      by_contra hgt
      push_neg at hgt
      exact absurd (h2min j hj300 hjge)
        (not_le.mpr (px_lt_px vpop hv hgt hk2))
    obtain ⟨hp1e, ht1e⟩ := p1_t1_eq vpop q k1 hk1mem hk1max
    obtain ⟨hp2e, ht2e⟩ := p2_t2_eq vpop q k2 hk2mem hk2min
    rw [t_ice_level_of_guard vpop q
      ⟨hrange.1, hrange.2, hp1e ▸ hp1, hp2e ▸ hp2⟩]
    rw [dsds, hp1e, hp2e, ht1e, ht2e]
  · intro ph hcase
    exact t_ice_level_zero_cases vpop ph hcase

/-- Temperature profile for the interpolation witness. -/
def tW1 : ℕ → ℝ := fun _ => 160

/-- Pressure profile for the interpolation witness: chosen so that the level
H2O partial pressure is exactly the table pressure `px 1 5`. -/
def pW1 : ℕ → ℝ := fun _ => px 1 5

/-- Water profile for the interpolation witness. -/
def h2oW1 : ℕ → ℝ := fun _ => 1.0e6

lemma pW1_ph2o : pW1 0 * h2oW1 0 * 1.0e-6 = px 1 5 := by
  simp only [pW1, h2oW1]
  rw [mul_assoc]
  norm_num

/-- Witness for C1: a one-level profile whose partial pressure hits the
table pressure `px 1 5`, bracketed by indices 4 and 5. -/
theorem frost_point_bracket_interpolation_witness :
    (runLevels 1 tW1 pW1 h2oW1 1).t_ice 0
      = 1 / (1 / tx 5
          - (log10 (px 1 5) - log10 (pW1 0 * h2oW1 0 * 1.0e-6))
            / (log10 (px 1 5) - log10 (px 1 4))
            * (1 / tx 5 - 1 / tx 4)) := by
  have hv : (1 : ℕ) = 1 ∨ (1 : ℕ) = 2 ∨ (1 : ℕ) = 3 := Or.inl rfl
  refine (frost_point_bracket_interpolation 1 hv tW1 pW1 h2oW1 1 0
    (by norm_num) (by norm_num [tW1]) 4 5 (by norm_num) (by norm_num)
    ?_ ?_ ?_ ?_ ?_ ?_ ?_).1
  · rw [pW1_ph2o]
    exact px_lt_px 1 hv (by norm_num) (by norm_num)
  · intro j hj hlt
    rw [pW1_ph2o] at hlt
    have hj5 : j < 5 := lt_of_px_lt_px 1 hv hj (by norm_num) hlt
    exact px_le_px 1 hv (by omega) (by norm_num)
  · rw [pW1_ph2o]
  · intro j hj hge
    rw [pW1_ph2o] at hge
    exact hge
  · constructor
    · rw [pW1_ph2o]
      exact pxMin_le 1 5 (by norm_num)
    · rw [pW1_ph2o]
      exact le_pxMax 1 5 (by norm_num)
  · exact px_pos 1 hv 4
  · exact px_pos 1 hv 5

/-- C6 (amended): an exact table hit away from the bottom edge round-trips
exactly: for `1 ≤ k ≤ 299`, feeding `p_h2o = px k` through the inverter
returns `tx k` (for an exact hit the interpolation fraction is zero). -/
theorem round_trip_exact_hit (vpop : ℕ) (hv : vpop = 1 ∨ vpop = 2 ∨ vpop = 3)
    (k : ℕ) (hk1 : 1 ≤ k) (hk : k < 300) :
    t_ice_level vpop (px vpop k) = tx k := by
  set q := px vpop k with hq
  have hk2mem : k ∈ hiK vpop q := (hiK_mem_iff vpop q k).mpr ⟨hk, le_rfl⟩
  have hk2min : ∀ j ∈ hiK vpop q, k ≤ j := by
    intro j hj
    obtain ⟨hj300, hjge⟩ := (hiK_mem_iff vpop q j).mp hj
    by_contra hgt
    push_neg at hgt
    exact absurd hjge (not_le.mpr (px_lt_px vpop hv hgt hk))
  have hk1mem : k - 1 ∈ lowK vpop q :=
    (lowK_mem_iff vpop q (k - 1)).mpr ⟨by omega, px_lt_px vpop hv (by omega) hk⟩
  have hk1max : ∀ j ∈ lowK vpop q, j ≤ k - 1 := by
    intro j hj
    obtain ⟨hj300, hjlt⟩ := (lowK_mem_iff vpop q j).mp hj
    have : j < k := lt_of_px_lt_px vpop hv hj300 hk hjlt
    omega
  obtain ⟨hp1e, ht1e⟩ := p1_t1_eq vpop q (k - 1) hk1mem hk1max
  obtain ⟨hp2e, ht2e⟩ := p2_t2_eq vpop q k hk2mem hk2min
  rw [t_ice_level_of_guard vpop q
    ⟨pxMin_le vpop k hk, le_pxMax vpop k hk,
      hp1e ▸ px_pos vpop hv (k - 1), hp2e ▸ px_pos vpop hv k⟩]
  rw [dsds, hp2e, ht2e]
  have hfrac : (log10 q - log10 q) / (log10 q - log10 (p1 vpop q)) = 0 := by
    rw [sub_self, zero_div]
  rw [hfrac, zero_mul, sub_zero, one_div_one_div]

/-- Witness for C6's amended claim at `vpop = 1`, `k = 7`. -/
theorem round_trip_exact_hit_witness : t_ice_level 1 (px 1 7) = tx 7 :=
  round_trip_exact_hit 1 (Or.inl rfl) 7 (by norm_num) (by norm_num)

/-- Counterexample to C6 as stated: at the first table index `k = 0` there
is no table pressure strictly below `p_h2o = px 0`, so `p1` stays 0, the
guard fails, and the inverter returns the 0 default instead of
`tx 0 = 50`. -/
theorem round_trip_fails_at_first_index :
    t_ice_level 1 (px 1 0) = 0 ∧ tx 0 = 50 ∧ (0 : ℝ) ≠ 50 := by
  refine ⟨?_, by norm_num [tx], by norm_num⟩
  apply t_ice_level_zero_cases
  left
  rintro ⟨k, hk, hlt⟩
  exact absurd hlt
    (not_lt.mpr (px_le_px 1 (Or.inl rfl) (Nat.zero_le k) hk))

/-- C10 (implicit): when both bracket bounds are found and the table
pressures are strictly increasing, `p1 < p_h2o ≤ p2`, hence `p1 ≠ p2`, the
interpolation denominator `log10 p2 − log10 p1` is nonzero, and the computed
`t_ice` lies strictly above `t1` and at most `t2`, hence within the table
range `[50, 947]` K. -/
theorem bracket_interpolation_safety
    (vpop : ℕ) (hv : vpop = 1 ∨ vpop = 2 ∨ vpop = 3) (ph2o : ℝ)
    (hlow : (lowK vpop ph2o).Nonempty) (hhi : (hiK vpop ph2o).Nonempty)
    (hmono : ∀ j k : ℕ, j < k → k < 300 → px vpop j < px vpop k) :
    p1 vpop ph2o < ph2o ∧ ph2o ≤ p2 vpop ph2o ∧
    p1 vpop ph2o ≠ p2 vpop ph2o ∧
    log10 (p2 vpop ph2o) - log10 (p1 vpop ph2o) ≠ 0 ∧
    t1 vpop ph2o < t_ice_level vpop ph2o ∧
    t_ice_level vpop ph2o ≤ t2 vpop ph2o ∧
    50 ≤ t_ice_level vpop ph2o ∧ t_ice_level vpop ph2o ≤ 947 := by
  obtain ⟨hK1r, hK1lt⟩ :=
    (lowK_mem_iff vpop ph2o _).mp ((lowK vpop ph2o).max'_mem hlow)
  obtain ⟨hK2r, hK2ge⟩ :=
    (hiK_mem_iff vpop ph2o _).mp ((hiK vpop ph2o).min'_mem hhi)
  have hp1e : p1 vpop ph2o = px vpop ((lowK vpop ph2o).max' hlow) := by
    simp only [p1]
    rw [dif_pos hlow]
  have ht1e : t1 vpop ph2o = tx ((lowK vpop ph2o).max' hlow) := by
    simp only [t1]
    rw [dif_pos hlow]
  have hp2e : p2 vpop ph2o = px vpop ((hiK vpop ph2o).min' hhi) := by
    simp only [p2]
    rw [dif_pos hhi]
  have ht2e : t2 vpop ph2o = tx ((hiK vpop ph2o).min' hhi) := by
    simp only [t2]
    rw [dif_pos hhi]
  set K1 := (lowK vpop ph2o).max' hlow with hK1
  set K2 := (hiK vpop ph2o).min' hhi with hK2
  have hp1pos : 0 < p1 vpop ph2o := hp1e ▸ px_pos vpop hv K1
  have hp2pos : 0 < p2 vpop ph2o := hp2e ▸ px_pos vpop hv K2
  have hplt : p1 vpop ph2o < ph2o := hp1e ▸ hK1lt
  have hple : ph2o ≤ p2 vpop ph2o := hp2e ▸ hK2ge
  have hph2opos : 0 < ph2o := lt_trans hp1pos hplt
  have hK12 : K1 < K2 := by
    apply lt_of_px_lt_px vpop hv hK1r hK2r
    rw [← hp1e, ← hp2e]
    exact lt_of_lt_of_le hplt hple
  have htx12 : tx K1 < tx K2 := tx_lt_tx hK12
  have ht1pos : 0 < t1 vpop ph2o := ht1e ▸ tx_pos K1
  have ht2pos : 0 < t2 vpop ph2o := ht2e ▸ tx_pos K2
  have ht12 : t1 vpop ph2o < t2 vpop ph2o := by
    rw [ht1e, ht2e]
    exact htx12
  have hL1h : log10 (p1 vpop ph2o) < log10 ph2o :=
    Real.logb_lt_logb (by norm_num) hp1pos hplt
  have hLh2 : log10 ph2o ≤ log10 (p2 vpop ph2o) :=
    Real.logb_le_logb_of_le (by norm_num) hph2opos hple
  have hL12 : log10 (p1 vpop ph2o) < log10 (p2 vpop ph2o) :=
    lt_of_lt_of_le hL1h hLh2
  have hD : 0 < log10 (p2 vpop ph2o) - log10 (p1 vpop ph2o) := by linarith
  have hfrac0 : 0 ≤ dsds vpop ph2o := by
    apply div_nonneg (by linarith) hD.le
  have hfrac1 : dsds vpop ph2o < 1 := by
    rw [dsds, div_lt_one hD]
    linarith
  have hguard := t_ice_level_of_guard vpop ph2o
    ⟨le_trans (pxMin_le vpop K1 hK1r) (hp1e ▸ hplt).le,
     le_trans hple (hp2e ▸ le_pxMax vpop K2 hK2r), hp1pos, hp2pos⟩
  have hinv12 : 1 / t2 vpop ph2o < 1 / t1 vpop ph2o :=
    one_div_lt_one_div_of_lt ht1pos ht12
  set denom := 1 / t2 vpop ph2o
    - dsds vpop ph2o * (1 / t2 vpop ph2o - 1 / t1 vpop ph2o) with hdenom
  have hdlow : 1 / t2 vpop ph2o ≤ denom := by
    rw [hdenom]
    nlinarith
  have hdhigh : denom < 1 / t1 vpop ph2o := by
    rw [hdenom]
    nlinarith
  have hdpos : 0 < denom :=
    lt_of_lt_of_le (one_div_pos.mpr ht2pos) hdlow
  have htle : t_ice_level vpop ph2o ≤ t2 vpop ph2o := by
    rw [hguard]
    calc 1 / denom ≤ 1 / (1 / t2 vpop ph2o) :=
          one_div_le_one_div_of_le (one_div_pos.mpr ht2pos) hdlow
    _ = t2 vpop ph2o := one_div_one_div _
  have htgt : t1 vpop ph2o < t_ice_level vpop ph2o := by
    rw [hguard]
    calc t1 vpop ph2o = 1 / (1 / t1 vpop ph2o) := (one_div_one_div _).symm
    _ < 1 / denom := one_div_lt_one_div_of_lt hdpos hdhigh
  refine ⟨hplt, hple, ne_of_lt (lt_of_lt_of_le hplt hple), ne_of_gt hD,
    htgt, htle, ?_, ?_⟩
  · have : (50 : ℝ) ≤ t1 vpop ph2o := ht1e ▸ tx_nonneg K1
    linarith
  · have : t2 vpop ph2o ≤ 947 := ht2e ▸ tx_le_947 K2 hK2r
    linarith

/-- Witness for C10 at `vpop = 2`, `p_h2o = px 2 7`: both bracket sets are
nonempty and all eight safety conclusions hold. -/
theorem bracket_interpolation_safety_witness :
    p1 2 (px 2 7) < px 2 7 ∧ px 2 7 ≤ p2 2 (px 2 7) ∧
    p1 2 (px 2 7) ≠ p2 2 (px 2 7) ∧
    log10 (p2 2 (px 2 7)) - log10 (p1 2 (px 2 7)) ≠ 0 ∧
    t1 2 (px 2 7) < t_ice_level 2 (px 2 7) ∧
    t_ice_level 2 (px 2 7) ≤ t2 2 (px 2 7) ∧
    50 ≤ t_ice_level 2 (px 2 7) ∧ t_ice_level 2 (px 2 7) ≤ 947 := by
  have hv : (2 : ℕ) = 1 ∨ (2 : ℕ) = 2 ∨ (2 : ℕ) = 3 := Or.inr (Or.inl rfl)
  apply bracket_interpolation_safety 2 hv (px 2 7)
  · exact ⟨6, (lowK_mem_iff 2 (px 2 7) 6).mpr
      ⟨by norm_num, px_lt_px 2 hv (by norm_num) (by norm_num)⟩⟩
  · exact ⟨7, (hiK_mem_iff 2 (px 2 7) 7).mpr ⟨by norm_num, le_rfl⟩⟩
  · exact fun j k hjk hk => px_lt_px 2 hv hjk hk

/-- C4: with `K = {i : 80 < z[i] < 95 ∧ m_ice[i] > 0}`: when `K` is empty
all four summary scalars are zero; when `K` is nonempty, `zmax` is the
altitude at the index in `K` of maximum `m_ice` (ties broken by first
occurrence in profile order), `ztop` is the largest and `zbot` the smallest
altitude over `K`. -/
theorem layer_summarizer_correct (n : ℕ) (z m : ℕ → ℝ) :
    (layerK n z m = ∅ →
      ztopVal n z m = 0 ∧ zmaxVal n z m = 0 ∧ zbotVal n z m = 0 ∧
      ∀ cdz : Option ℝ, iwcCalc n z m cdz = some 0) ∧
    ((layerK n z m).Nonempty →
      (∃ l ∈ layerK n z m, zmaxVal n z m = z l ∧
        (∀ j ∈ layerK n z m, m j ≤ m l) ∧
        (∀ j ∈ layerK n z m, m j = m l → l ≤ j)) ∧
      (∃ jt ∈ layerK n z m, ztopVal n z m = z jt) ∧
      (∀ j ∈ layerK n z m, z j ≤ ztopVal n z m) ∧
      (∃ jb ∈ layerK n z m, zbotVal n z m = z jb) ∧
      (∀ j ∈ layerK n z m, zbotVal n z m ≤ z j)) := by
  constructor
  · intro hemp
    have hne : ¬ (layerK n z m).Nonempty := by
      rw [hemp]
      exact Finset.not_nonempty_empty
    refine ⟨?_, ?_, ?_, ?_⟩
    · rw [ztopVal, dif_neg hne]
    · rw [zmaxVal, if_neg hne]
    · rw [zbotVal, dif_neg hne]
    · intro cdz
      rw [iwcCalc, if_neg hne]
  · intro h
    have hpf : ((layerK n z m).filter
        fun i => m i = (layerK n z m).sup' h m).Nonempty := by
      obtain ⟨j, hj, he⟩ := Finset.exists_mem_eq_sup' h m
      exact ⟨j, Finset.mem_filter.2 ⟨hj, he.symm⟩⟩
    have hpeak : peakIdx n z m = ((layerK n z m).filter
        fun i => m i = (layerK n z m).sup' h m).min' hpf := by
      simp only [peakIdx]
      rw [dif_pos h]
    have hlmem := Finset.min'_mem _ hpf
    rw [← hpeak] at hlmem
    obtain ⟨hlK, hlsup⟩ := Finset.mem_filter.1 hlmem
    refine ⟨⟨peakIdx n z m, hlK, ?_, ?_, ?_⟩, ?_, ?_, ?_, ?_⟩
    · rw [zmaxVal, if_pos h]
    · intro j hj
      rw [hlsup]
      exact Finset.le_sup' m hj
    · intro j hj hje
      have : j ∈ (layerK n z m).filter
          fun i => m i = (layerK n z m).sup' h m :=
        Finset.mem_filter.2 ⟨hj, by rw [hje, hlsup]⟩
      rw [hpeak]
      exact Finset.min'_le _ j this
    · obtain ⟨jt, hjt, hje⟩ := Finset.exists_mem_eq_sup' h z
      refine ⟨jt, hjt, ?_⟩
      rw [ztopVal, dif_pos h]
      exact hje
    · intro j hj
      rw [ztopVal, dif_pos h]
      exact Finset.le_sup' z hj
    · obtain ⟨jb, hjb, hje⟩ := Finset.exists_mem_eq_inf' h z
      refine ⟨jb, hjb, ?_⟩
      rw [zbotVal, dif_pos h]
      exact hje
    · intro j hj
      rw [zbotVal, dif_pos h]
      exact Finset.inf'_le z hj

/-- All-zero altitude profile: no level falls in the 80–95 km band. -/
def czE : ℕ → ℝ := fun _ => 0

/-- All-zero mass profile. -/
def cmE : ℕ → ℝ := fun _ => 0

/-- Witness for C4: with no level in the band, all four summary scalars are
zero. -/
theorem layer_summarizer_correct_witness :
    ztopVal 1 czE cmE = 0 ∧ zmaxVal 1 czE cmE = 0 ∧ zbotVal 1 czE cmE = 0 ∧
    iwcCalc 1 czE cmE none = some 0 := by
  have hemp : layerK 1 czE cmE = ∅ := by
    rw [layerK, Finset.filter_eq_empty_iff]
    intro i hi
    norm_num [czE]
  obtain ⟨h1, h2, h3, h4⟩ := (layer_summarizer_correct 1 czE cmE).1 hemp
  exact ⟨h1, h2, h3, h4 none⟩

lemma pyGet_int_of_lt (n : ℕ) (f : ℕ → ℝ) (i : ℤ) (h0 : 0 ≤ i) (hn : i < (n : ℤ)) :
    pyGet n f i = some (f i.toNat) := by
  rw [pyGet, if_pos ⟨h0, hn⟩]

lemma pyGet_wrap (n : ℕ) (f : ℕ → ℝ) (i : ℤ) (hneg : i < 0) (hge : -(n : ℤ) ≤ i) :
    pyGet n f i = some (f (i + (n : ℤ)).toNat) := by
  rw [pyGet, if_neg (by omega), if_pos ⟨hge, hneg⟩]

lemma pyGet_oob (n : ℕ) (f : ℕ → ℝ) (i : ℤ) (h : (n : ℤ) ≤ i) : pyGet n f i = none := by
  rw [pyGet, if_neg (by omega), if_neg (by omega)]

/-- With `constdz` unset, the integration loop carries one fixed `dz`
through every iteration and adds `m i * dz` for each window index. -/
lemma iwc_foldl_const (n : ℕ) (z m : ℕ → ℝ) (zmax : ℝ) (d : ℝ) (l : List ℕ) :
    ∀ acc : ℝ,
      l.foldl (iwcStep n z m zmax none) (some (some d, acc))
        = some (some d, acc + ((l.filter fun i => decide (zmax - 2 < z i)).map
            fun i => m i * d).sum) := by
  induction l with
  | nil =>
    intro acc
    simp
  | cons a tl ih =>
    intro acc
    rw [List.foldl_cons]
    by_cases hw : zmax - 2 < z a
    · have hstep : iwcStep n z m zmax none (some (some d, acc)) a
          = some (some d, acc + m a * d) := by
        simp only [iwcStep, if_pos hw]
      rw [hstep, ih, List.filter_cons_of_pos (by simpa using hw)]
      simp only [List.map_cons, List.sum_cons, Option.some.injEq, Prod.mk.injEq]
      exact ⟨trivial, by ring⟩
    · have hstep : iwcStep n z m zmax none (some (some d, acc)) a
          = some (some d, acc) := by
        simp only [iwcStep, if_neg hw]
      rw [hstep, ih, List.filter_cons_of_neg (by simpa using hw)]

/-- With `constdz` supplied and every window index interior, each iteration
recomputes the centred difference and adds `m i * |z[i+1]-z[i-1]|/2`. -/
lemma iwc_foldl_centered (n : ℕ) (z m : ℕ → ℝ) (zmax c : ℝ) (l : List ℕ)
    (hint : ∀ i ∈ l, zmax - 2 < z i → 1 ≤ i ∧ i + 1 < n) :
    ∀ (dz : Option ℝ) (acc : ℝ),
      (l.foldl (iwcStep n z m zmax (some c)) (some (dz, acc))).map (fun st => st.2)
        = some (acc + ((l.filter fun i => decide (zmax - 2 < z i)).map
            fun i => m i * (|z (i + 1) - z (i - 1)| * 0.5)).sum) := by
  induction l with
  | nil =>
    intro dz acc
    simp
  | cons a tl ih =>
    intro dz acc
    have hint' : ∀ i ∈ tl, zmax - 2 < z i → 1 ≤ i ∧ i + 1 < n :=
      fun i hi => hint i (List.mem_cons_of_mem a hi)
    rw [List.foldl_cons]
    by_cases hw : zmax - 2 < z a
    · obtain ⟨ha1, han⟩ := hint a (List.mem_cons_self a tl) hw
      have he1 : ((a : ℤ) + 1).toNat = a + 1 := by omega
      have he2 : ((a : ℤ) - 1).toNat = a - 1 := by omega
      have hget1 : pyGet n z ((a : ℤ) + 1) = some (z (a + 1)) := by
        rw [pyGet_int_of_lt n z ((a : ℤ) + 1) (by omega) (by omega), he1]
      have hget2 : pyGet n z ((a : ℤ) - 1) = some (z (a - 1)) := by
        rw [pyGet_int_of_lt n z ((a : ℤ) - 1) (by omega) (by omega), he2]
      have hstep : iwcStep n z m zmax (some c) (some (dz, acc)) a
          = some (some (|z (a + 1) - z (a - 1)| * 0.5),
              acc + m a * (|z (a + 1) - z (a - 1)| * 0.5)) := by
        simp only [iwcStep, if_pos hw, hget1, hget2]
      rw [hstep, ih hint', List.filter_cons_of_pos (by simpa using hw)]
      simp only [List.map_cons, List.sum_cons, Option.some.injEq]
      ring
    · have hstep : iwcStep n z m zmax (some c) (some (dz, acc)) a
          = some (dz, acc) := by
        simp only [iwcStep, if_neg hw]
      rw [hstep, ih hint', List.filter_cons_of_neg (by simpa using hw)]

/-- C2 (amended, matching the code): when `constdz` is unset the loop uses
the single fixed spacing `|z[1]-z[0]|` for every accumulated level; the
per-level centred difference `|z[i+1]-z[i-1]|/2` is used precisely when
`constdz` IS supplied (and the supplied value itself is never used). -/
theorem iwc_spacing_amended (n : ℕ) (z m : ℕ → ℝ) (h2 : 2 ≤ n)
    (hK : (layerK n z m).Nonempty) :
    iwcCalc n z m none
      = some ((((layerKList n z m).filter
          fun i => decide (zmaxVal n z m - 2 < z i)).map
          fun i => m i * |z 1 - z 0|).sum) ∧
    (∀ c : ℝ,
      (∀ i ∈ layerKList n z m, zmaxVal n z m - 2 < z i → 1 ≤ i ∧ i + 1 < n) →
      iwcCalc n z m (some c)
        = some ((((layerKList n z m).filter
            fun i => decide (zmaxVal n z m - 2 < z i)).map
            fun i => m i * (|z (i + 1) - z (i - 1)| * 0.5)).sum)) := by
  have hg1 : pyGet n z 1 = some (z 1) := by
    rw [pyGet_int_of_lt n z 1 (by norm_num) (by omega)]
    norm_num
  have hg0 : pyGet n z 0 = some (z 0) := by
    rw [pyGet_int_of_lt n z 0 le_rfl (by omega)]
    norm_num
  constructor
  · unfold iwcCalc
    rw [if_pos hK]
    have hdz : dzInit n z none = some (some |z 1 - z 0|) := by
      simp only [dzInit, hg1, hg0]
    rw [hdz, Option.some_bind, iwc_foldl_const]
    simp only [Option.map_some']
    rw [zero_add]
  · intro c hint
    unfold iwcCalc
    rw [if_pos hK]
    have hdz : dzInit n z (some c) = some none := rfl
    rw [hdz, Option.some_bind, iwc_foldl_centered n z m (zmaxVal n z m) c _ hint]
    rw [zero_add]

/-- Altitude profile for the spacing counterexample: spacing 1 km between
the first two levels, 2 km between the next two. -/
def cz2 : ℕ → ℝ := fun i => if i = 0 then 84 else if i = 1 then 85 else 87

/-- Mass profile for the spacing counterexample: ice only at level 1. -/
def cm2 : ℕ → ℝ := fun i => if i = 1 then 1 else 0

lemma layerK_cz2 : layerK 3 cz2 cm2 = {1} := by
  ext i
  simp only [layerK, Finset.mem_filter, Finset.mem_range, Finset.mem_singleton]
  constructor
  · rintro ⟨hi, h80, h95, hm⟩
    interval_cases i
    · norm_num [cm2] at hm
    · rfl
    · norm_num [cm2] at hm
  · rintro rfl
    norm_num [cz2, cm2]

lemma layerKList_cz2 : layerKList 3 cz2 cm2 = [1] := by
  have h3 : List.range 3 = [0, 1, 2] := rfl
  simp only [layerKList, h3, List.filter_cons, List.filter_nil, decide_eq_true_eq]
  norm_num [cz2, cm2]

lemma peakIdx_singleton (n : ℕ) (z m : ℕ → ℝ) (j : ℕ)
    (hK : layerK n z m = {j}) : peakIdx n z m = j := by
  simp only [peakIdx, hK]
  rw [dif_pos ⟨j, Finset.mem_singleton_self j⟩]
  simp [Finset.filter_singleton]

lemma zmaxVal_singleton (n : ℕ) (z m : ℕ → ℝ) (j : ℕ)
    (hK : layerK n z m = {j}) : zmaxVal n z m = z j := by
  rw [zmaxVal, if_pos (by rw [hK]; exact ⟨j, Finset.mem_singleton_self j⟩),
    peakIdx_singleton n z m j hK]

/-- Counterexample to C2 as stated: with `constdz` unset and non-uniform
spacing, the accumulated `iwc` uses the global `|z[1]-z[0]| = 1` (giving 1),
not the centred difference `|z[2]-z[0]|/2 = 3/2` the claim prescribes. -/
theorem iwc_fixed_dz_counterexample :
    iwcCalc 3 cz2 cm2 none = some 1 ∧
    cm2 1 * (|cz2 2 - cz2 0| / 2) = 3 / 2 ∧ (1 : ℝ) ≠ 3 / 2 := by
  refine ⟨?_, by norm_num [cz2, cm2], by norm_num⟩
  have hK : (layerK 3 cz2 cm2).Nonempty := by
    rw [layerK_cz2]
    exact ⟨1, Finset.mem_singleton_self 1⟩
  unfold iwcCalc
  rw [if_pos hK]
  have hg1 : pyGet 3 cz2 1 = some (cz2 1) := by
    rw [pyGet_int_of_lt 3 cz2 1 (by norm_num) (by norm_num)]
    norm_num
  have hg0 : pyGet 3 cz2 0 = some (cz2 0) := by
    rw [pyGet_int_of_lt 3 cz2 0 le_rfl (by norm_num)]
    norm_num
  have hdz : dzInit 3 cz2 none = some (some |cz2 1 - cz2 0|) := by
    simp only [dzInit, hg1, hg0]
  rw [hdz, Option.some_bind, layerKList_cz2,
    zmaxVal_singleton 3 cz2 cm2 1 layerK_cz2, iwc_foldl_const]
  simp only [Option.map_some']
  have hw : cz2 1 - 2 < cz2 1 := by norm_num
  rw [List.filter_cons_of_pos (by simp only [decide_eq_true_eq]; exact hw),
    List.filter_nil]
  simp only [List.map_cons, List.map_nil, List.sum_cons, List.sum_nil]
  norm_num [cz2, cm2]

/-- Witness for C2's amended claim on the same concrete profile. -/
theorem iwc_spacing_amended_witness :
    iwcCalc 3 cz2 cm2 none
      = some ((((layerKList 3 cz2 cm2).filter
          fun i => decide (zmaxVal 3 cz2 cm2 - 2 < cz2 i)).map
          fun i => cm2 i * |cz2 1 - cz2 0|).sum) :=
  (iwc_spacing_amended 3 cz2 cm2 (by norm_num)
    (by rw [layerK_cz2]; exact ⟨1, Finset.mem_singleton_self 1⟩)).1

/-- Altitude profile for the boundary counterexample: the in-band peak is at
index 0, so the loop reads `z[-1]`, which wraps to the far value 200. -/
def cz9 : ℕ → ℝ := fun i => if i = 0 then 85 else if i = 1 then 86 else 200

/-- Mass profile for the boundary counterexample: ice only at level 0. -/
def cm9 : ℕ → ℝ := fun i => if i = 0 then 1 else 0

lemma layerK_cz9 : layerK 3 cz9 cm9 = {0} := by
  ext i
  simp only [layerK, Finset.mem_filter, Finset.mem_range, Finset.mem_singleton]
  constructor
  · rintro ⟨hi, h80, h95, hm⟩
    interval_cases i
    · rfl
    · norm_num [cm9] at hm
    · norm_num [cm9] at hm
  · rintro rfl
    norm_num [cz9, cm9]

lemma layerKList_cz9 : layerKList 3 cz9 cm9 = [0] := by
  have h3 : List.range 3 = [0, 1, 2] := rfl
  simp only [layerKList, h3, List.filter_cons, List.filter_nil, decide_eq_true_eq]
  norm_num [cz9, cm9]

/-- Counterexample to C9 as stated: at a selected index on the lower profile
boundary the read of `z[i-1]` is not bounds-checked — it silently wraps to
the last element, so the accumulated `iwc` is `|86 − 200|/2 = 57` rather
than the one-sided value 1 the claim prescribes. -/
theorem iwc_boundary_counterexample :
    iwcCalc 3 cz9 cm9 (some 1) = some 57 ∧
    cm9 0 * |cz9 1 - cz9 0| = 1 ∧ (57 : ℝ) ≠ 1 := by
  refine ⟨?_, by norm_num [cz9, cm9], by norm_num⟩
  have hK : (layerK 3 cz9 cm9).Nonempty := by
    rw [layerK_cz9]
    exact ⟨0, Finset.mem_singleton_self 0⟩
  unfold iwcCalc
  rw [if_pos hK]
  have hdz : dzInit 3 cz9 (some 1) = some none := rfl
  rw [hdz, Option.some_bind, layerKList_cz9,
    zmaxVal_singleton 3 cz9 cm9 0 layerK_cz9]
  have hw : cz9 0 - 2 < cz9 0 := by norm_num
  have hg1 : pyGet 3 cz9 (((0 : ℕ) : ℤ) + 1) = some (cz9 1) := by
    rw [pyGet_int_of_lt 3 cz9 _ (by norm_num) (by norm_num)]
    norm_num
  have hg2 : pyGet 3 cz9 (((0 : ℕ) : ℤ) - 1) = some (cz9 2) := by
    rw [pyGet_wrap 3 cz9 _ (by norm_num) (by norm_num)]
    norm_num
    rfl
  have hstep : iwcStep 3 cz9 cm9 (cz9 0) (some 1) (some (none, 0)) 0
      = some (some (|cz9 1 - cz9 2| * 0.5), 0 + cm9 0 * (|cz9 1 - cz9 2| * 0.5)) := by
    simp only [iwcStep, if_pos hw, hg1, hg2]
  rw [List.foldl_cons, hstep, List.foldl_nil]
  simp only [Option.map_some']
  norm_num [cz9, cm9]

/-- Altitude profile for the upper-boundary failure: two levels, ice at the
last one. -/
def czU : ℕ → ℝ := fun i => if i = 0 then 84 else 85

/-- Mass profile for the upper-boundary failure. -/
def cmU : ℕ → ℝ := fun i => if i = 0 then 0 else 1

lemma layerK_czU : layerK 2 czU cmU = {1} := by
  ext i
  simp only [layerK, Finset.mem_filter, Finset.mem_range, Finset.mem_singleton]
  constructor
  · rintro ⟨hi, h80, h95, hm⟩
    interval_cases i
    · norm_num [cmU] at hm
    · rfl
  · rintro rfl
    norm_num [czU, cmU]

lemma layerKList_czU : layerKList 2 czU cmU = [1] := by
  have h2 : List.range 2 = [0, 1] := rfl
  simp only [layerKList, h2, List.filter_cons, List.filter_nil, decide_eq_true_eq]
  norm_num [czU, cmU]

/-- C9 (amended, matching the code): the boundary reads are not
bounds-checked.  A negative index (`z[i-1]` at selected index 0) silently
wraps to the other end of the array, and `z[i+1]` at the last level is an
out-of-range read that aborts the integration (modelled as `none`) instead
of any one-sided fallback. -/
theorem iwc_boundary_amended :
    (∀ (n : ℕ) (f : ℕ → ℝ), 1 ≤ n → pyGet n f (-1) = some (f (n - 1))) ∧
    iwcCalc 2 czU cmU (some 1) = none := by
  constructor
  · intro n f hn
    rw [pyGet_wrap n f (-1) (by norm_num) (by omega)]
    have he : ((-1 : ℤ) + (n : ℤ)).toNat = n - 1 := by omega
    rw [he]
  · have hK : (layerK 2 czU cmU).Nonempty := by
      rw [layerK_czU]
      exact ⟨1, Finset.mem_singleton_self 1⟩
    unfold iwcCalc
    rw [if_pos hK]
    have hdz : dzInit 2 czU (some 1) = some none := rfl
    rw [hdz, Option.some_bind, layerKList_czU,
      zmaxVal_singleton 2 czU cmU 1 layerK_czU]
    have hw : czU 1 - 2 < czU 1 := by norm_num
    have hg1 : pyGet 2 czU (((1 : ℕ) : ℤ) + 1) = none :=
      pyGet_oob 2 czU _ (by norm_num)
    have hstep : iwcStep 2 czU cmU (czU 1) (some 1) (some (none, 0)) 1 = none := by
      simp only [iwcStep, if_pos hw, hg1]
    rw [List.foldl_cons, hstep, List.foldl_nil]
    rfl

/-- Witness for C9's amended claim: the wrap-around read on the concrete
boundary profile, and the out-of-range failure. -/
theorem iwc_boundary_amended_witness :
    pyGet 3 cz9 (-1) = some (cz9 2) ∧ iwcCalc 2 czU cmU (some 1) = none := by
  constructor
  · have := iwc_boundary_amended.1 3 cz9 (by norm_num)
    simpa using this
  · exact iwc_boundary_amended.2

end

end PMC
